import Mathlib

/-!
Verification of the simob-agent core against its specification.

The Go sources are shallowly embedded: strings are `List Char`, byte
sequences are `List Nat` (each element < 256), machine integers are `Int`
or `Nat` with explicit `% 2^w` where overflow matters, and I/O results
(HTTP responses, file contents, process probes) are passed in as explicit
values.  Every definition mirrors a named function of the repository;
comments name the Go source location.
-/

set_option maxRecDepth 100000

/-- Str abbreviates the embedding of Go strings as lists of characters. -/
abbrev Str := List Char

/-- goIsSpace mirrors Go unicode.IsSpace: the white-space code points
recognised by strings.TrimSpace (Latin-1 plus the Unicode space property). -/
def goIsSpace (c : Char) : Bool :=
  c.toNat = 9 ∨ c.toNat = 10 ∨ c.toNat = 11 ∨ c.toNat = 12 ∨ c.toNat = 13 ∨
  c.toNat = 32 ∨ c.toNat = 133 ∨ c.toNat = 160 ∨ c.toNat = 0x1680 ∨
  (0x2000 ≤ c.toNat ∧ c.toNat ≤ 0x200A) ∨ c.toNat = 0x2028 ∨ c.toNat = 0x2029 ∨
  c.toNat = 0x202F ∨ c.toNat = 0x205F ∨ c.toNat = 0x3000

/-- trimSpace mirrors Go strings.TrimSpace: drop white space on both ends. -/
def trimSpace (s : Str) : Str :=
  ((s.dropWhile goIsSpace).reverse.dropWhile goIsSpace).reverse

/-- isNlChar tests for the newline character. -/
def isNlChar (c : Char) : Bool := c = '\n'

/-- trimRightNl mirrors Go strings.TrimRight(s, a newline cutset): drop every
trailing newline character. -/
def trimRightNl (s : Str) : Str :=
  (s.reverse.dropWhile isNlChar).reverse

/-- splitNl mirrors Go strings.Split(s, a newline separator): split on every
newline; the empty string yields one empty field. -/
def splitNl : Str → List Str
  | [] => [[]]
  | c :: rest =>
    match splitNl rest with
    | [] => [[]]
    | line :: more =>
      if c = '\n' then [] :: line :: more else (c :: line) :: more

/-- splitDot mirrors Go strings.Split(s, a dot separator), used by the
updater's version comparison. -/
def splitDot : Str → List Str
  | [] => [[]]
  | c :: rest =>
    match splitDot rest with
    | [] => [[]]
    | line :: more =>
      if c = '.' then [] :: line :: more else (c :: line) :: more

/-- serializeLines is the spool-file image of a list of records: each line
followed by one newline (strings.Join(lines, newline) + newline for a
non-empty list, the empty string otherwise), as written by rewriteSpool in
src/agent/internal/updater/updater.go. -/
def serializeLines : List Str → Str
  | [] => []
  | l :: ls => l ++ '\n' :: serializeLines ls

/-- digitsToNat? reads a non-empty all-decimal-digit string as a Nat,
returning none otherwise; helper for the embedding of Go strconv.ParseInt. -/
def digitsToNat? : Str → Option Nat
  | [] => none
  | [c] => if c.isDigit then some (c.toNat - 48) else none
  | c :: rest =>
    if c.isDigit then
      match digitsToNat? rest with
      | some n => some ((c.toNat - 48) * 10 ^ rest.length + n)
      | none => none
    else none

/-- parseInt64? mirrors Go strconv.ParseInt(s, 10, 64) (and strconv.Atoi on a
64-bit platform): optional sign, then decimal digits only; values outside the
int64 range are an error (modelled as none). -/
def parseInt64? (s : Str) : Option Int :=
  match s with
  | [] => none
  | '+' :: rest =>
    match digitsToNat? rest with
    | some n => if n ≤ 9223372036854775807 then some (n : Int) else none
    | none => none
  | '-' :: rest =>
    match digitsToNat? rest with
    | some n => if n ≤ 9223372036854775808 then some (-(n : Int)) else none
    | none => none
  | _ =>
    match digitsToNat? s with
    | some n => if n ≤ 9223372036854775807 then some (n : Int) else none
    | none => none

/-! ## SHA-256 (crypto/sha256), over byte lists -/

/-- w32 truncates a Nat to a 32-bit word. -/
def w32 (n : Nat) : Nat := n % 4294967296

/-- rotr32 rotates a 32-bit word right by k bits. -/
def rotr32 (k n : Nat) : Nat := n / 2 ^ k + n % 2 ^ k * 2 ^ (32 - k)

/-- shaCh is the SHA-256 choice function. -/
def shaCh (x y z : Nat) : Nat := (x &&& y) ^^^ ((x ^^^ 4294967295) &&& z)

/-- shaMaj is the SHA-256 majority function. -/
def shaMaj (x y z : Nat) : Nat := (x &&& y) ^^^ (x &&& z) ^^^ (y &&& z)

/-- shaBigSigma0 is the SHA-256 Σ0 function. -/
def shaBigSigma0 (x : Nat) : Nat := rotr32 2 x ^^^ rotr32 13 x ^^^ rotr32 22 x

/-- shaBigSigma1 is the SHA-256 Σ1 function. -/
def shaBigSigma1 (x : Nat) : Nat := rotr32 6 x ^^^ rotr32 11 x ^^^ rotr32 25 x

/-- shaSmallSigma0 is the SHA-256 σ0 function. -/
def shaSmallSigma0 (x : Nat) : Nat := rotr32 7 x ^^^ rotr32 18 x ^^^ x / 8

/-- shaSmallSigma1 is the SHA-256 σ1 function. -/
def shaSmallSigma1 (x : Nat) : Nat := rotr32 17 x ^^^ rotr32 19 x ^^^ x / 1024

/-- shaK is the SHA-256 round-constant table (FIPS 180-4, in decimal). -/
def shaK : List Nat :=
  [1116352408, 1899447441, 3049323471, 3921009573, 961987163,
   1508970993, 2453635748, 2870763221, 3624381080, 310598401,
   607225278, 1426881987, 1925078388, 2162078206, 2614888103,
   3248222580, 3835390401, 4022224774, 264347078, 604807628,
   770255983, 1249150122, 1555081692, 1996064986, 2554220882,
   2821834349, 2952996808, 3210313671, 3336571891, 3584528711,
   113926993, 338241895, 666307205, 773529912, 1294757372,
   1396182291, 1695183700, 1986661051, 2177026350, 2456956037,
   2730485921, 2820302411, 3259730800, 3345764771, 3516065817,
   3600352804, 4094571909, 275423344, 430227734, 506948616,
   659060556, 883997877, 958139571, 1322822218, 1537002063,
   1747873779, 1955562222, 2024104815, 2227730452, 2361852424,
   2428436474, 2756734187, 3204031479, 3329325298]

/-- shaInitH is the SHA-256 initial hash state (FIPS 180-4, in decimal). -/
def shaInitH : List Nat :=
  [1779033703, 3144134277, 1013904242, 2773480762,
   1359893119, 2600822924, 528734635, 1541459225]

/-- beBytes renders v as n big-endian bytes. -/
def beBytes : Nat → Nat → List Nat
  | 0, _ => []
  | n + 1, v => v / 256 ^ n % 256 :: beBytes n (v % 256 ^ n)

/-- padBytes appends the SHA-256 padding (a 0x80 byte, zeros to 56 mod 64,
then the bit length as 8 big-endian bytes). -/
def padBytes (msg : List Nat) : List Nat :=
  let l := msg.length
  msg ++ 128 :: List.replicate ((119 - l % 64) % 64) 0 ++ beBytes 8 (8 * l)

/-- chunks64 cuts a byte list into 64-byte blocks (fuel-indexed so the
recursion is structural; the fuel is taken at least the list length). -/
def chunks64 : Nat → List Nat → List (List Nat)
  | 0, _ => []
  | _ + 1, [] => []
  | fuel + 1, l => l.take 64 :: chunks64 fuel (l.drop 64)

/-- bytesToWords packs bytes into big-endian 32-bit words. -/
def bytesToWords : List Nat → List Nat
  | b0 :: b1 :: b2 :: b3 :: rest =>
    (((b0 * 256 + b1) * 256 + b2) * 256 + b3) :: bytesToWords rest
  | _ => []

/-- scheduleStep extends a SHA-256 message schedule by one word. -/
def scheduleStep (acc : List Nat) : List Nat :=
  let n := acc.length
  acc ++ [w32 (shaSmallSigma1 (acc.getD (n - 2) 0) + acc.getD (n - 7) 0 +
               shaSmallSigma0 (acc.getD (n - 15) 0) + acc.getD (n - 16) 0)]

/-- buildSchedule iterates scheduleStep k times over the 16 block words. -/
def buildSchedule (ws : List Nat) : Nat → List Nat
  | 0 => ws
  | k + 1 => scheduleStep (buildSchedule ws k)

/-- shaRound performs one SHA-256 compression round on the 8-word state. -/
def shaRound (st : List Nat) (kw : Nat × Nat) : List Nat :=
  match st with
  | [a, b, c, d, e, f, g, h] =>
    let t1 := w32 (h + shaBigSigma1 e + shaCh e f g + kw.1 + kw.2)
    let t2 := w32 (shaBigSigma0 a + shaMaj a b c)
    [w32 (t1 + t2), a, b, c, w32 (d + t1), e, f, g]
  | other => other

/-- processBlock compresses one 64-byte block into the running hash state. -/
def processBlock (h : List Nat) (block : List Nat) : List Nat :=
  let sched := buildSchedule (bytesToWords block) 48
  let final := (shaK.zip sched).foldl shaRound h
  (h.zip final).map fun p => w32 (p.1 + p.2)

/-- sha256Bytes is the SHA-256 digest (32 bytes) of a byte list, embedding
crypto/sha256 as used by CollectionConfig.Hash and calculateFileSHA256. -/
def sha256Bytes (msg : List Nat) : List Nat :=
  let padded := padBytes msg
  ((chunks64 padded.length padded).foldl processBlock shaInitH).foldr
    (fun wrd acc => beBytes 4 wrd ++ acc) []

/-- hexDigit renders a value below 16 as a lower-case hex character. -/
def hexDigit (n : Nat) : Char :=
  if n < 10 then Char.ofNat (48 + n) else Char.ofNat (87 + n)

/-- hexOfBytes renders bytes as lower-case hex, as Go fmt %x does. -/
def hexOfBytes (bs : List Nat) : Str :=
  bs.foldr (fun b acc => hexDigit (b / 16) :: hexDigit (b % 16) :: acc) []

/-- utf8EncodeChar encodes one character as UTF-8 bytes. -/
def utf8EncodeChar (c : Char) : List Nat :=
  let n := c.toNat
  if n < 128 then [n]
  else if n < 2048 then [192 + n / 64, 128 + n % 64]
  else if n < 65536 then [224 + n / 4096, 128 + n / 64 % 64, 128 + n % 64]
  else [240 + n / 262144, 128 + n / 4096 % 64, 128 + n / 64 % 64, 128 + n % 64]

/-- utf8Encode encodes a string as its UTF-8 byte sequence (Go strings are
byte strings; the agent's are UTF-8 text). -/
def utf8Encode (s : Str) : List Nat := s.foldr (fun c acc => utf8EncodeChar c ++ acc) []

namespace Simob

/-! ## JSON encoding (encoding/json), as far as CollectionConfig needs it -/

/-- lbrace is the opening-brace character of a JSON object. -/
def lbrace : Char := Char.ofNat 123

/-- rbrace is the closing-brace character of a JSON object. -/
def rbrace : Char := Char.ofNat 125

/-- uEsc renders a code point as a JSON backslash-u escape. -/
def uEsc (n : Nat) : Str :=
  ['\\', 'u', hexDigit (n / 4096 % 16), hexDigit (n / 256 % 16),
   hexDigit (n / 16 % 16), hexDigit (n % 16)]

/-- escapeChar mirrors the Go encoding/json string encoder (HTML escaping
on, as json.Marshal uses): quote and backslash get a backslash escape,
newline, carriage return and tab their short forms, other control
characters, the HTML characters and the line separators U+2028/U+2029 a
backslash-u escape, and every other character stands for itself. -/
def escapeChar (c : Char) : Str :=
  if c = '"' ∨ c = '\\' then ['\\', c]
  else if c = '\n' then ['\\', 'n']
  else if c = '\r' then ['\\', 'r']
  else if c = '\t' then ['\\', 't']
  else if c.toNat < 32 then uEsc c.toNat
  else if c = '<' ∨ c = '>' ∨ c = '&' then uEsc c.toNat
  else if c.toNat = 0x2028 ∨ c.toNat = 0x2029 then uEsc c.toNat
  else [c]

/-- marshalString renders a Go string as a JSON string literal. -/
def marshalString (s : Str) : Str :=
  '"' :: s.foldr (fun c acc => escapeChar c ++ acc) [] ++ ['"']

/-- commaSep joins rendered elements with commas. -/
def commaSep : List Str → Str
  | [] => []
  | [x] => x
  | x :: xs => x ++ ',' :: commaSep xs

/-- marshalArray renders a JSON array from rendered elements (a non-nil Go
slice; a nil slice would render as null and is outside this model). -/
def marshalArray (elems : List Str) : Str := '[' :: commaSep elems ++ [']']

/-- ltStr is Go string comparison (byte-wise lexicographic on the UTF-8
encoding, which orders exactly like code points). -/
def ltStr : Str → Str → Bool
  | [], [] => false
  | [], _ :: _ => true
  | _ :: _, [] => false
  | a :: as, b :: bs =>
    if a.toNat < b.toNat then true
    else if b.toNat < a.toNat then false
    else ltStr as bs

/-- insertPair inserts into a key-sorted pair list. -/
def insertPair (p : Str × Str) : List (Str × Str) → List (Str × Str)
  | [] => [p]
  | q :: qs => if ltStr q.1 p.1 then q :: insertPair p qs else p :: q :: qs

/-- sortPairs sorts pairs by key, as the Go JSON encoder sorts map keys. -/
def sortPairs : List (Str × Str) → List (Str × Str)
  | [] => []
  | p :: ps => insertPair p (sortPairs ps)

/-- marshalPairs renders a (non-nil) Go map[string]string as a JSON object
with keys in sorted order, as encoding/json does. -/
def marshalPairs (ps : List (Str × Str)) : Str :=
  lbrace :: commaSep ((sortPairs ps).map fun p =>
    marshalString p.1 ++ ':' :: marshalString p.2) ++ [rbrace]

/-! ## CollectionConfig (src/agent/internal/collection/config.go) -/

/-- Metric embeds collection.Metric.  The float64 Value field is represented
by the JSON number token Go's encoder produces for it (valueRepr): IEEE-754
formatting itself is outside the embedding, and the encoding is injective on
the float64 values json.Marshal accepts, so value content and token content
identify each other. -/
structure Metric where
  name : Str
  type : Str
  valueRepr : Str
  unit : Str
  labels : List (Str × Str)
deriving DecidableEq

/-- LogSource embeds collection.LogSource. -/
structure LogSource where
  name : Str
  path : Str
deriving DecidableEq

/-- CollectionConfig embeds collection.CollectionConfig: the metrics slice
and the log-sources slice, in their JSON order. -/
structure CollectionConfig where
  metrics : List Metric
  logSources : List LogSource
deriving DecidableEq

/-- marshalMetric renders one Metric with the struct-tag field order
name, type, value, unit, labels. -/
def marshalMetric (m : Metric) : Str :=
  lbrace :: (("\"name\":".toList) ++ marshalString m.name ++
    ',' :: ("\"type\":".toList) ++ marshalString m.type ++
    ',' :: ("\"value\":".toList) ++ m.valueRepr ++
    ',' :: ("\"unit\":".toList) ++ marshalString m.unit ++
    ',' :: ("\"labels\":".toList) ++ marshalPairs m.labels) ++ [rbrace]

/-- marshalLogSource renders one LogSource with field order name, path. -/
def marshalLogSource (ls : LogSource) : Str :=
  lbrace :: (("\"name\":".toList) ++ marshalString ls.name ++
    ',' :: ("\"path\":".toList) ++ marshalString ls.path) ++ [rbrace]

/-- marshalConfig is json.Marshal of a CollectionConfig: an object with the
metrics array then the log_sources array, in slice order. -/
def marshalConfig (c : CollectionConfig) : Str :=
  lbrace :: (("\"metrics\":".toList) ++ marshalArray (c.metrics.map marshalMetric) ++
    ',' :: ("\"log_sources\":".toList) ++
    marshalArray (c.logSources.map marshalLogSource)) ++ [rbrace]

/-- Hash embeds CollectionConfig.Hash: the lower-case hex SHA-256 of the
JSON encoding (the error return can only fire on unencodable values, which
the model's types exclude). -/
def CollectionConfig.Hash (c : CollectionConfig) : Str :=
  hexOfBytes (sha256Bytes (utf8Encode (marshalConfig c)))

/-! ## Spool and flusher (src/agent/internal/updater/updater.go, exporter) -/

/-- MaxBatchSize is the exporter constant MaxBatchSize. -/
def MaxBatchSize : Nat := 100

/-- MaxAgeMs is the exporter constant MaxAge (24 h), in the milliseconds of
cutoff = time.Now().Add(-MaxAge).UnixMilli(). -/
def MaxAgeMs : Int := 86400000

/-- Payload embeds the exporter's Payload interface as far as flushOnce
inspects it: GetTimestamp(), the decimal-string timestamp field.  The other
payload fields ride along unexamined and are dropped from the model. -/
structure Payload where
  timestamp : Str
deriving DecidableEq

/-- sendPayloadOk is true iff sendPayload returns a nil error: in dry-run
mode it only prints, otherwise the POST must reach the sink (resp = some
code rather than a transport error) and the code must be HTTP 204. -/
def sendPayloadOk (dryRun : Bool) (resp : Option Nat) : Bool :=
  if dryRun then true
  else match resp with
    | none => false
    | some code => code = 204

/-- lineToPayload is one iteration of flushOnce's parse-and-filter loop:
skip blank lines, skip lines the stream's unmarshal rejects, skip entries
whose timestamp parses to a value below the cutoff; keep the rest. -/
def lineToPayload (unmarshal : Str → Option Payload) (cutoff : Int) (raw : Str) :
    Option Payload :=
  if (trimSpace raw).isEmpty then none
  else match unmarshal raw with
    | none => none
    | some obj =>
      match parseInt64? obj.timestamp with
      | some t => if t < cutoff then none else some obj
      | none => some obj

/-- toSendOf is the toSend batch flushOnce accumulates from the raw batch. -/
def toSendOf (unmarshal : Str → Option Payload) (cutoff : Int) (rawBatch : List Str) :
    List Payload :=
  rawBatch.filterMap (lineToPayload unmarshal cutoff)

/-- flushOnce embeds Exporter.flushOnce on an existing spool file: read the
content, trim trailing newlines, split into lines, take the prefix of at
most MaxBatchSize lines, filter it into toSend, POST when non-empty (the
sink's answer is the resp argument), and on success rewrite the spool with
the lines after the prefix, returning true iff lines remain.  The pair is
(resulting file content, Go's (bool, error) return with error as .error). -/
def flushOnce (dryRun : Bool) (resp : Option Nat) (unmarshal : Str → Option Payload)
    (now : Int) (data : Str) : Str × Except Unit Bool :=
  let content := trimRightNl data
  if content.isEmpty then (data, .ok false)
  else
    let lines := splitNl content
    if lines.isEmpty then (data, .ok false)
    else
      let batchSize := min lines.length MaxBatchSize
      let rawBatch := lines.take batchSize
      let toSend := toSendOf unmarshal (now - MaxAgeMs) rawBatch
      let keepLines := lines.drop batchSize
      if !toSend.isEmpty && !sendPayloadOk dryRun resp then (data, .error ())
      else (serializeLines keepLines, .ok (!keepLines.isEmpty))

/-- flushAllAux is flushAll's retry loop once the context check has passed:
call flushOnce, stop on error or when no entries remain, loop otherwise.
The fuel only bounds the recursion; it is chosen at least the number of
spool lines, and every looping iteration removes at least one line, so the
fuel never runs out on the arguments the model uses. -/
def flushAllAux (dryRun : Bool) (resp : Option Nat) (unmarshal : Str → Option Payload)
    (now : Int) : Nat → Str → Str × Nat
  | 0, data => (data, 0)
  | fuel + 1, data =>
    match flushOnce dryRun resp unmarshal now data with
    | (d, .error _) => (d, 1)
    | (d, .ok false) => (d, 1)
    | (d, .ok true) =>
      let r := flushAllAux dryRun resp unmarshal now fuel d
      (r.1, r.2 + 1)

/-- flushAll embeds Exporter.flushAll with the supervisor context state
fixed for the call: its loop first selects on ctx.Done() and returns at
once when the context is cancelled, before any flushOnce call; otherwise it
drains the spool.  The Nat counts the flushOnce calls performed. -/
def flushAll (ctxDone dryRun : Bool) (resp : Option Nat)
    (unmarshal : Str → Option Payload) (now : Int) (data : Str) : Str × Nat :=
  if ctxDone then (data, 0)
  else flushAllAux dryRun resp unmarshal now (data.length + 1) data

/-- startFlusherOnCancel is startFlusher's ctx.Done() branch: the "final
flush before shutdown" call to flushAll, made when the flusher's context
has just become done (so flushAll's own context check sees it cancelled). -/
def startFlusherOnCancel (dryRun : Bool) (resp : Option Nat)
    (unmarshal : Str → Option Payload) (now : Int) (data : Str) : Str × Nat :=
  flushAll true dryRun resp unmarshal now data

/-! ## Self-updater (src/unnamed/part_006) -/

/-- UpdateInfo embeds updater.UpdateInfo. -/
structure UpdateInfo where
  version : Str
  downloadURL : Str
  checksum : Str
deriving DecidableEq

/-- versionPartsNewer is targetVersionIsNewer's three-segment loop: compare
matching segments numerically via Atoi, answering on the first difference;
a parse failure answers false; equal versions answer false. -/
def versionPartsNewer : List Str → List Str → Bool
  | c :: cs, t :: ts =>
    match parseInt64? c, parseInt64? t with
    | some cp, some tp =>
      if cp < tp then true else if tp < cp then false else versionPartsNewer cs ts
    | _, _ => false
  | _, _ => false

/-- targetVersionIsNewer embeds updater.targetVersionIsNewer: a current
version of dev always updates; otherwise both versions must have exactly
three dot-separated numeric segments, compared left to right. -/
def targetVersionIsNewer (currentVersion targetVersion : Str) : Bool :=
  if currentVersion = ("dev".toList) then true
  else
    let splitCurrent := splitDot currentVersion
    let splitTarget := splitDot targetVersion
    if splitCurrent.length = 3 ∧ splitTarget.length = 3 then
      versionPartsNewer splitCurrent splitTarget
    else false

/-- calculateFileSHA256 embeds updater.calculateFileSHA256 on the file's
bytes: the lower-case hex SHA-256 digest. -/
def calculateFileSHA256 (contents : List Nat) : Str := hexOfBytes (sha256Bytes contents)

/-- verifySHA256 embeds updater.verifySHA256 on a readable file: the
computed digest must equal the expected string. -/
def verifySHA256 (contents : List Nat) (expectedSHA256 : Str) : Bool :=
  calculateFileSHA256 contents == expectedSHA256

/-- UpdateOutcome records what an Update run did to the file system:
whether Update returned nil, whether applyUpdate renamed the downloaded
binary over the target, and whether the deferred cleanup removed the
.new file. -/
structure UpdateOutcome where
  ok : Bool
  binaryReplaced : Bool
  newFileRemoved : Bool
deriving DecidableEq

/-- updateRun embeds updater.Update from the version check on, on a run
where the manifest fetch and the download itself succeed (their failure
exits never reach the checksum step): when the target version is not newer
Update returns nil before downloading; otherwise the downloaded bytes are
verified against the manifest checksum — on success applyUpdate swaps the
binary and the deferred cleanup finds no .new file left, on mismatch Update
aborts with an error before applyUpdate and the deferred cleanup removes
the .new file. -/
def updateRun (currentVersion : Str) (info : UpdateInfo) (downloaded : List Nat) :
    UpdateOutcome :=
  if !targetVersionIsNewer currentVersion info.version then
    { ok := true, binaryReplaced := false, newFileRemoved := false }
  else if verifySHA256 downloaded info.checksum then
    { ok := true, binaryReplaced := true, newFileRemoved := false }
  else
    { ok := false, binaryReplaced := false, newFileRemoved := true }

/-! ## AuthGuard (src/unnamed/part_005) -/

/-- errorThreshold is authguard.errorThreshold. -/
def errorThreshold : Nat := 10

/-- evaluationPeriodMs is authguard.evaluationPeriod (1 minute), in
milliseconds; all AuthGuard times are modelled in milliseconds. -/
def evaluationPeriodMs : Int := 60000

/-- AuthGuard embeds the AuthGuard singleton state: the failure counter,
the last failure time, and whether Subscribe has set a key-check channel. -/
structure AuthGuard where
  errorCount : Nat
  lastErrorTime : Int
  subscribed : Bool
deriving DecidableEq

/-- HandleUnauthorized embeds AuthGuard.HandleUnauthorized at wall time
now: reset the counter when more than the evaluation period has passed
since the last failure, increment, record the failure time, and on reaching
the threshold deliver the key-check signal (when subscribed) and reset.
The Bool reports whether a signal was delivered. -/
def HandleUnauthorized (now : Int) (ag : AuthGuard) : AuthGuard × Bool :=
  let count0 := if now - ag.lastErrorTime > evaluationPeriodMs then 0 else ag.errorCount
  let count1 := count0 + 1
  if count1 ≥ errorThreshold then
    ({ ag with errorCount := 0, lastErrorTime := now }, ag.subscribed)
  else
    ({ ag with errorCount := count1, lastErrorTime := now }, false)

/-- runAuthGuard folds HandleUnauthorized over a list of call times and
counts the key-check signals delivered. -/
def runAuthGuard : List Int → AuthGuard → AuthGuard × Nat
  | [], ag => (ag, 0)
  | t :: ts, ag =>
    let step := HandleUnauthorized t ag
    let rest := runAuthGuard ts step.1
    (rest.1, (if step.2 then 1 else 0) + rest.2)

/-! ## Single-instance lock (src/agent/internal/common/lockfile.go) -/

/-- ProbeOutcome is what the liveness probe for a PID can observe. -/
inductive ProbeOutcome
  | alive
  | notRunning
  | permDenied
  | probeFailed
deriving DecidableEq

/-- Modelled from the spec: gopsutil's process.PidExists is not part of the
repository.  Per the spec's failure semantics ("liveness-probe
permission-denied is treated as alive"), a permission-denied probe reports
the process as existing with a nil error; a failed probe reports an error.
The pair is (exists, non-nil error). -/
def pidExists : ProbeOutcome → Bool × Bool
  | .alive => (true, false)
  | .notRunning => (false, false)
  | .permDenied => (true, false)
  | .probeFailed => (false, true)

/-- isProcessRunning embeds common.isProcessRunning: false whenever the
probe errored, the probe's existence answer otherwise. -/
def isProcessRunning (probe : ProbeOutcome) : Bool :=
  let r := pidExists probe
  if r.2 then false else r.1

/-- natDigits renders n in decimal (fuel-indexed structural recursion). -/
def natDigits : Nat → Nat → Str
  | 0, _ => []
  | fuel + 1, n =>
    if n < 10 then [hexDigit n] else natDigits fuel (n / 10) ++ [hexDigit (n % 10)]

/-- natToStr renders a Nat in decimal. -/
def natToStr (n : Nat) : Str := natDigits (n + 1) n

/-- intToStr embeds strconv.Itoa. -/
def intToStr (i : Int) : Str :=
  if i < 0 then '-' :: natToStr i.natAbs else natToStr i.natAbs

/-- LockResult is AcquireLock's outcome: the lock was claimed, or
ErrAlreadyRunning was returned. -/
inductive LockResult
  | acquired
  | alreadyRunning
deriving DecidableEq

/-- LockState is the PID file's state: whether it exists and its content. -/
structure LockState where
  fileExists : Bool
  content : Str
deriving DecidableEq

/-- AcquireLock embeds common.AcquireLock on a healthy file system: when
the exclusive create succeeds the current PID is written; when the file
exists, readPID parses its content with strconv.Atoi — on a parse error the
stale file is overwritten, on a positive PID whose process is running
ErrAlreadyRunning is returned with the file untouched, and otherwise the
stale file is overwritten. -/
def AcquireLock (st : LockState) (probe : Int → ProbeOutcome) (currentPID : Int) :
    LockResult × LockState :=
  if !st.fileExists then (.acquired, ⟨true, intToStr currentPID⟩)
  else
    match parseInt64? st.content with
    | none => (.acquired, ⟨true, intToStr currentPID⟩)
    | some oldPID =>
      if oldPID > 0 ∧ isProcessRunning (probe oldPID) then (.alreadyRunning, st)
      else (.acquired, ⟨true, intToStr currentPID⟩)

/-! ## Tail positions (src/unnamed/part_007) -/

/-- FileFingerprint embeds logs.FileFingerprint: the inode (the spec's
device id; file index on Windows) and size. -/
structure FileFingerprint where
  inode : Nat
  size : Int
deriving DecidableEq

/-- FilePosition embeds logs.Position: the read offset. -/
structure FilePosition where
  offset : Int
deriving DecidableEq

/-- PositionEntry embeds logs.PositionEntry. -/
structure PositionEntry where
  path : Str
  fingerprint : FileFingerprint
  position : FilePosition
deriving DecidableEq

/-- fpMatches is the fingerprint condition matchByFingerprint tests: equal
inode and stored size at most the current size. -/
def fpMatches (entry : PositionEntry) (current : FileFingerprint) : Bool :=
  decide (entry.fingerprint.inode = current.inode ∧
          entry.fingerprint.size ≤ current.size)

/-- Positions embeds the map[string]PositionEntry of TailRunner as an
association list with distinct keys; the list order stands for one Go map
iteration order (Go leaves that order unspecified). -/
abbrev Positions := List (Str × PositionEntry)

/-- matchByFingerprint embeds logs.matchByFingerprint once os.Stat has
produced the current fingerprint: first the entry stored under the exact
path is tested, then all entries are scanned in iteration order. -/
def matchByFingerprint (positions : Positions) (path : Str)
    (currentFp : FileFingerprint) : Option PositionEntry :=
  match positions.lookup path with
  | some entry =>
    if fpMatches entry currentFp then some entry
    else (positions.map Prod.snd).find? (fun e => fpMatches e currentFp)
  | none => (positions.map Prod.snd).find? (fun e => fpMatches e currentFp)

/-- startOffset is the tail location TailRunner.Start chooses for a file:
the matched entry's offset on a warm start, offset 0 otherwise. -/
def startOffset (positions : Positions) (path : Str)
    (currentFp : FileFingerprint) : Int :=
  match matchByFingerprint positions path currentFp with
  | some e => e.position.offset
  | none => 0

/-! ## Theorems -/

/-- cfgSwapA is a config with no metrics and two log sources. -/
def cfgSwapA : CollectionConfig :=
  ⟨[], [⟨("a".toList), ("p".toList)⟩, ⟨("b".toList), ("q".toList)⟩]⟩

/-- cfgSwapB is cfgSwapA with its two log sources exchanged: the same
multiset of log sources in the other retrieval order. -/
def cfgSwapB : CollectionConfig :=
  ⟨[], [⟨("b".toList), ("q".toList)⟩, ⟨("a".toList), ("p".toList)⟩]⟩

/-- C2, counterexample: two CollectionConfig values whose metrics and
log-source sequences are equal as multisets but whose hashes differ,
because json.Marshal keeps slice order and no canonicalisation happens
before hashing. -/
theorem hash_not_multiset_invariant :
    (Multiset.ofList cfgSwapA.metrics = Multiset.ofList cfgSwapB.metrics) ∧
    (Multiset.ofList cfgSwapA.logSources = Multiset.ofList cfgSwapB.logSources) ∧
    CollectionConfig.Hash cfgSwapA ≠ CollectionConfig.Hash cfgSwapB := by
  refine ⟨rfl, Multiset.coe_eq_coe.mpr (List.Perm.swap _ _ _), by decide⟩

/-- C2, amended: the hash depends only on the metric and log-source
sequences as retrieved (order included); two configs with equal metric
sequences and equal log-source sequences hash identically. -/
theorem hash_eq_of_eq_sequences (cfg cfg' : CollectionConfig)
    (hm : cfg.metrics = cfg'.metrics) (hl : cfg.logSources = cfg'.logSources) :
    CollectionConfig.Hash cfg = CollectionConfig.Hash cfg' := by
  cases cfg; cases cfg'; cases hm; cases hl; rfl

/-- Witness for the amended C2 theorem at a concrete config. -/
theorem hash_eq_of_eq_sequences_witness :
    cfgSwapA.metrics = cfgSwapA.metrics ∧ cfgSwapA.logSources = cfgSwapA.logSources ∧
    CollectionConfig.Hash cfgSwapA = CollectionConfig.Hash cfgSwapA :=
  ⟨rfl, rfl, hash_eq_of_eq_sequences cfgSwapA cfgSwapA rfl rfl⟩

/-- C5: the claim says a final flush_once is performed on the spool when
the flusher's context is cancelled.  In the code, startFlusher's ctx.Done()
branch calls flushAll, but flushAll's own select sees the already-cancelled
context and returns before any flushOnce call: the "final flush" performs
zero flushOnce calls and leaves the spool untouched, whatever it holds. -/
theorem final_flush_on_cancel_flushes_nothing (dryRun : Bool) (resp : Option Nat)
    (unmarshal : Str → Option Payload) (now : Int) (data : Str) :
    startFlusherOnCancel dryRun resp unmarshal now data = (data, 0) := rfl

/-- C6: when the downloaded bytes hash to something other than the
manifest checksum (and the version check let the download happen), Update
returns an error before applyUpdate runs: the target binary is not
replaced and the deferred cleanup removes the .new file. -/
theorem update_checksum_mismatch_aborts (currentVersion : Str) (info : UpdateInfo)
    (downloaded : List Nat)
    (hnewer : targetVersionIsNewer currentVersion info.version = true)
    (hmismatch : calculateFileSHA256 downloaded ≠ info.checksum) :
    updateRun currentVersion info downloaded = ⟨false, false, true⟩ := by
  unfold updateRun
  rw [hnewer]
  simp only [Bool.not_true, Bool.false_eq_true, if_false]
  rw [if_neg]
  simp only [verifySHA256, beq_iff_eq]
  exact hmismatch

/-- Witness for C6 at a concrete mismatching download. -/
theorem update_checksum_mismatch_aborts_witness :
    targetVersionIsNewer ("1.2.0".toList) ("1.3.0".toList) = true ∧
    calculateFileSHA256 [] ≠ ("deadbeef".toList) ∧
    updateRun ("1.2.0".toList) ⟨("1.3.0".toList), ("u".toList), ("deadbeef".toList)⟩ [] =
      ⟨false, false, true⟩ :=
  ⟨by decide, by decide,
    update_checksum_mismatch_aborts ("1.2.0".toList)
      ⟨("1.3.0".toList), ("u".toList), ("deadbeef".toList)⟩ [] (by decide) (by decide)⟩

/-- C8: an existing PID file holding a positive integer whose liveness
probe fails with permission denied is treated as a live owner: AcquireLock
returns ErrAlreadyRunning and the PID file is not overwritten. -/
theorem acquire_lock_perm_denied_already_running
    (st : LockState) (probe : Int → ProbeOutcome) (currentPID oldPID : Int)
    (hex : st.fileExists = true)
    (hparse : parseInt64? st.content = some oldPID)
    (hpos : 0 < oldPID)
    (hprobe : probe oldPID = .permDenied) :
    AcquireLock st probe currentPID = (.alreadyRunning, st) := by
  unfold AcquireLock
  rw [hex]
  simp only [Bool.not_true, Bool.false_eq_true, if_false, hparse]
  rw [if_pos]
  exact ⟨hpos, by rw [hprobe]; rfl⟩

/-- Witness for C8 at a concrete PID file and probe. -/
theorem acquire_lock_perm_denied_already_running_witness :
    (LockState.mk true ("42".toList)).fileExists = true ∧
    parseInt64? (LockState.mk true ("42".toList)).content = some 42 ∧
    (0 : Int) < 42 ∧
    AcquireLock ⟨true, ("42".toList)⟩ (fun _ => .permDenied) 7 =
      (.alreadyRunning, ⟨true, ("42".toList)⟩) :=
  ⟨rfl, by decide, by decide,
    acquire_lock_perm_denied_already_running ⟨true, ("42".toList)⟩
      (fun _ => .permDenied) 7 42 rfl (by decide) (by decide) rfl⟩

/-- spreadOut holds when consecutive call times (starting from a previous
failure time) are each separated by more than the evaluation period. -/
def spreadOut : Int → List Int → Bool
  | _, [] => true
  | last, t :: ts => decide (evaluationPeriodMs < t - last) && spreadOut t ts

/-- chainLe holds when each call time follows the previous one (or the
previous failure) by at most the evaluation period. -/
def chainLe : Int → List Int → Bool
  | _, [] => true
  | last, t :: ts => decide (t - last ≤ evaluationPeriodMs) && chainLe t ts

/-- runAuthGuard on spread-out calls never signals: every call resets the
counter first and leaves it at one. -/
theorem runAuthGuard_spread (ts : List Int) :
    ∀ ag : AuthGuard, spreadOut ag.lastErrorTime ts = true →
      (runAuthGuard ts ag).2 = 0 := by
  induction ts with
  | nil => intro ag _; rfl
  | cons t ts ih =>
    intro ag hsp
    simp only [spreadOut, Bool.and_eq_true, decide_eq_true_eq] at hsp
    have hstep : HandleUnauthorized t ag = (⟨1, t, ag.subscribed⟩, false) := by
      unfold HandleUnauthorized
      rw [if_pos (by omega : evaluationPeriodMs < t - ag.lastErrorTime)]
      rw [if_neg (by simp [errorThreshold])]
    simp only [runAuthGuard, hstep]
    rw [ih ⟨1, t, ag.subscribed⟩ hsp.2]
    simp

/-- runAuthGuard on a no-reset chain that stays strictly below the
threshold delivers no signal and just counts up, preserving the
subscription flag and tracking the last call time. -/
theorem runAuthGuard_chain_below (ts : List Int) :
    ∀ ag : AuthGuard, chainLe ag.lastErrorTime ts = true →
      ag.errorCount + ts.length < errorThreshold →
      runAuthGuard ts ag =
        (⟨ag.errorCount + ts.length, ts.getLastD ag.lastErrorTime, ag.subscribed⟩, 0) := by
  induction ts with
  | nil => intro ag _ _; rfl
  | cons t ts ih =>
    intro ag hch hlt
    simp only [chainLe, Bool.and_eq_true, decide_eq_true_eq] at hch
    simp only [List.length_cons, errorThreshold] at hlt
    have hstep : HandleUnauthorized t ag = (⟨ag.errorCount + 1, t, ag.subscribed⟩, false) := by
      unfold HandleUnauthorized
      rw [if_neg (by omega : ¬ evaluationPeriodMs < t - ag.lastErrorTime)]
      rw [if_neg (by simp only [errorThreshold]; omega)]
    simp only [runAuthGuard, hstep]
    rw [ih ⟨ag.errorCount + 1, t, ag.subscribed⟩ hch.2
      (by show ag.errorCount + 1 + ts.length < errorThreshold
          simp only [errorThreshold]; omega)]
    simp only [List.getLastD_cons, List.length_cons]
    have hc : ag.errorCount + 1 + ts.length = ag.errorCount + (ts.length + 1) := by omega
    rw [hc]
    simp

/-- runAuthGuard on a no-reset chain that reaches the threshold exactly at
its last call signals once iff subscribed, and resets the counter. -/
theorem runAuthGuard_chain_exact (ts : List Int) :
    ∀ ag : AuthGuard, chainLe ag.lastErrorTime ts = true →
      ag.errorCount + ts.length = errorThreshold → ts ≠ [] →
      (runAuthGuard ts ag).2 = (if ag.subscribed then 1 else 0) ∧
      (runAuthGuard ts ag).1.errorCount = 0 := by
  induction ts with
  | nil => intro ag _ _ hne; exact absurd rfl hne
  | cons t ts ih =>
    intro ag hch hsum _
    simp only [chainLe, Bool.and_eq_true, decide_eq_true_eq] at hch
    simp only [List.length_cons] at hsum
    cases ts with
    | nil =>
      have hcount : ag.errorCount + 1 = errorThreshold := by
        simp only [List.length_nil] at hsum; omega
      have hstep : HandleUnauthorized t ag = (⟨0, t, ag.subscribed⟩, ag.subscribed) := by
        unfold HandleUnauthorized
        rw [if_neg (by omega : ¬ evaluationPeriodMs < t - ag.lastErrorTime)]
        rw [if_pos (by omega)]
      simp only [runAuthGuard, hstep]
      cases h : ag.subscribed <;> simp
    | cons t2 ts2 =>
      have hstep : HandleUnauthorized t ag = (⟨ag.errorCount + 1, t, ag.subscribed⟩, false) := by
        unfold HandleUnauthorized
        rw [if_neg (by omega : ¬ evaluationPeriodMs < t - ag.lastErrorTime)]
        rw [if_neg (by
          simp only [List.length_cons] at hsum
          simp only [errorThreshold] at hsum ⊢
          omega)]
      simp only [runAuthGuard, hstep]
      have hrec := ih ⟨ag.errorCount + 1, t, ag.subscribed⟩ hch.2
        (by show ag.errorCount + 1 + (t2 :: ts2).length = errorThreshold
            simp only [List.length_cons] at hsum ⊢
            omega)
        (by simp)
      exact ⟨by simpa using hrec.1, hrec.2⟩

/-- C7: (1) a call arriving more than the evaluation period after the
previous failure resets the counter before incrementing, leaving it at one
with no signal; (2) nine calls each separated by more than one minute
deliver no key-check signal; (3) ten calls within the sliding window, on a
subscribed guard starting from a zero counter, deliver exactly one
key-check signal, after which the counter is zero. -/
theorem authguard_window_spec :
    (∀ (ag : AuthGuard) (now : Int), evaluationPeriodMs < now - ag.lastErrorTime →
      HandleUnauthorized now ag = (⟨1, now, ag.subscribed⟩, false)) ∧
    (∀ (ag : AuthGuard) (ts : List Int), ts.length = 9 →
      spreadOut ag.lastErrorTime ts = true → (runAuthGuard ts ag).2 = 0) ∧
    (∀ (ag : AuthGuard) (ts : List Int), ts.length = 10 → ag.errorCount = 0 →
      ag.subscribed = true → chainLe ag.lastErrorTime ts = true →
      (runAuthGuard ts ag).2 = 1 ∧ (runAuthGuard ts ag).1.errorCount = 0) := by
  refine ⟨?_, ?_, ?_⟩
  · intro ag now h
    unfold HandleUnauthorized
    rw [if_pos h, if_neg (by simp [errorThreshold])]
  · intro ag ts _ hsp
    exact runAuthGuard_spread ts ag hsp
  · intro ag ts hlen hcount hsub hch
    have := runAuthGuard_chain_exact ts ag hch
      (by rw [hlen, hcount]; decide) (by intro h; rw [h] at hlen; simp at hlen)
    rw [hsub] at this
    simpa using this

/-- Witness for C7: each of the three parts applied at concrete call
sequences (reset after a long gap; nine spread-out failures; ten failures
within one minute on a fresh subscribed guard). -/
theorem authguard_window_spec_witness :
    (evaluationPeriodMs < (70000 : Int) - (AuthGuard.mk 5 0 false).lastErrorTime ∧
      HandleUnauthorized 70000 ⟨5, 0, false⟩ = (⟨1, 70000, false⟩, false)) ∧
    (spreadOut (AuthGuard.mk 3 0 true).lastErrorTime
        [70000, 140000, 210000, 280000, 350000, 420000, 490000, 560000, 630000] = true ∧
      (runAuthGuard [70000, 140000, 210000, 280000, 350000, 420000, 490000, 560000, 630000]
        ⟨3, 0, true⟩).2 = 0) ∧
    (chainLe (AuthGuard.mk 0 0 true).lastErrorTime [1, 2, 3, 4, 5, 6, 7, 8, 9, 10] = true ∧
      (runAuthGuard [1, 2, 3, 4, 5, 6, 7, 8, 9, 10] ⟨0, 0, true⟩).2 = 1 ∧
      (runAuthGuard [1, 2, 3, 4, 5, 6, 7, 8, 9, 10] ⟨0, 0, true⟩).1.errorCount = 0) :=
  ⟨⟨by decide, authguard_window_spec.1 ⟨5, 0, false⟩ 70000 (by decide)⟩,
   ⟨by decide, authguard_window_spec.2.1 ⟨3, 0, true⟩ _ (by decide) (by decide)⟩,
   ⟨by decide,
    (authguard_window_spec.2.2 ⟨0, 0, true⟩ _ (by decide) rfl rfl (by decide)).1,
    (authguard_window_spec.2.2 ⟨0, 0, true⟩ _ (by decide) rfl rfl (by decide)).2⟩⟩

/-- A lookup hit's value is among the map's values. -/
theorem lookup_mem_values (positions : Positions) (path : Str) (entry : PositionEntry)
    (h : positions.lookup path = some entry) : entry ∈ positions.map Prod.snd := by
  induction positions with
  | nil => simp [List.lookup] at h
  | cons p ps ih =>
    simp only [List.lookup] at h
    cases hp : path == p.1 with
    | true =>
      rw [hp] at h
      have h2 : p.2 = entry := Option.some.inj h
      rw [← h2]
      simp only [List.map_cons]
      exact List.mem_cons_self _ _
    | false =>
      rw [hp] at h
      simp only [List.map_cons, List.mem_cons]
      exact Or.inr (ih h)

/-- C9: how TailRunner.Start picks the tail offset for a matched file.
(1) When the entry stored under the file's path has the file's inode (the
spec's device id) and a stored size at most the current size, tailing
resumes at that entry's offset.  (2) Otherwise, when some entry of the map
satisfies the two fingerprint conditions, tailing resumes at the offset of
such an entry.  (3) When no entry satisfies them, tailing starts at 0. -/
theorem start_offset_resume_spec (positions : Positions) (path : Str)
    (currentFp : FileFingerprint) :
    (∀ entry, positions.lookup path = some entry → fpMatches entry currentFp = true →
      startOffset positions path currentFp = entry.position.offset) ∧
    ((∀ entry, positions.lookup path = some entry → fpMatches entry currentFp = false) →
      ∀ e ∈ positions.map Prod.snd, fpMatches e currentFp = true →
        ∃ e2 ∈ positions.map Prod.snd, fpMatches e2 currentFp = true ∧
          startOffset positions path currentFp = e2.position.offset) ∧
    ((∀ e ∈ positions.map Prod.snd, fpMatches e currentFp = false) →
      startOffset positions path currentFp = 0) := by
  refine ⟨?_, ?_, ?_⟩
  · intro entry hlk hfp
    simp only [startOffset, matchByFingerprint, hlk, hfp, if_true]
  · intro hmiss e hmem hfp
    have hfind : ∃ e2, (positions.map Prod.snd).find? (fun x => fpMatches x currentFp) = some e2 := by
      cases hf : (positions.map Prod.snd).find? (fun x => fpMatches x currentFp) with
      | none => exact absurd hfp (by simpa using List.find?_eq_none.mp hf e hmem)
      | some e2 => exact ⟨e2, rfl⟩
    obtain ⟨e2, hf⟩ := hfind
    refine ⟨e2, List.mem_of_find?_eq_some hf, by simpa using List.find?_some hf, ?_⟩
    cases hlk : positions.lookup path with
    | none => simp only [startOffset, matchByFingerprint, hlk, hf]
    | some entry =>
      simp only [startOffset, matchByFingerprint, hlk, hmiss entry hlk,
        Bool.false_eq_true, if_false, hf]
  · intro hnone
    have hf : (positions.map Prod.snd).find? (fun x => fpMatches x currentFp) = none :=
      List.find?_eq_none.mpr (by intro x hx; simp [hnone x hx])
    cases hlk : positions.lookup path with
    | none => simp only [startOffset, matchByFingerprint, hlk, hf]
    | some entry =>
      simp only [startOffset, matchByFingerprint, hlk,
        hnone entry (lookup_mem_values positions path entry hlk),
        Bool.false_eq_true, if_false, hf]

/-- entryA is a position entry matching fingerprint ⟨7, 100⟩. -/
def entryA : PositionEntry := ⟨("a".toList), ⟨7, 40⟩, ⟨11⟩⟩

/-- entryB is a position entry not matching fingerprint ⟨7, 100⟩. -/
def entryB : PositionEntry := ⟨("b".toList), ⟨8, 40⟩, ⟨22⟩⟩

/-- Witness for C9: the three branches at concrete position maps (path
hit; rename handled through the scan; cold start). -/
theorem start_offset_resume_spec_witness :
    (startOffset [(("a".toList), entryA)] ("a".toList) ⟨7, 100⟩ = 11) ∧
    (startOffset [(("b".toList), entryB), (("c".toList), entryA)] ("a".toList) ⟨7, 100⟩ = 11) ∧
    (startOffset [(("b".toList), entryB)] ("a".toList) ⟨7, 100⟩ = 0) :=
  ⟨(start_offset_resume_spec [(("a".toList), entryA)] ("a".toList) ⟨7, 100⟩).1
      entryA (by decide) (by decide),
   by
    have h := (start_offset_resume_spec [(("b".toList), entryB), (("c".toList), entryA)]
        ("a".toList) ⟨7, 100⟩).2.1
      (by
        intro entry h
        rw [show List.lookup ("a".toList) [(("b".toList), entryB), (("c".toList), entryA)] =
          none by decide] at h
        exact Option.noConfusion h)
      entryA (by decide) (by decide)
    obtain ⟨e2, hmem, hfp, hoff⟩ := h
    rw [hoff]
    have he : e2 = entryB ∨ e2 = entryA := by simpa using hmem
    rcases he with he | he
    · rw [he] at hfp
      exact absurd hfp (by decide)
    · rw [he]
      rfl,
   (start_offset_resume_spec [(("b".toList), entryB)] ("a".toList) ⟨7, 100⟩).2.2 (by decide)⟩

/-- C4: flushOnce's batch filter never lets a stale record through: no
payload presented to the sink has a parseable timestamp strictly below the
24-hour cutoff computed at batching time; such records are dropped. -/
theorem stale_records_never_sent (unmarshal : Str → Option Payload) (now : Int)
    (rawBatch : List Str) (obj : Payload) (t : Int)
    (hmem : obj ∈ toSendOf unmarshal (now - MaxAgeMs) rawBatch)
    (ht : parseInt64? obj.timestamp = some t) :
    ¬ t < now - MaxAgeMs := by
  intro hlt
  obtain ⟨raw, _, heq⟩ := List.mem_filterMap.mp hmem
  cases hblank : (trimSpace raw).isEmpty with
  | true => simp [lineToPayload, hblank] at heq
  | false =>
    cases hum : unmarshal raw with
    | none => simp [lineToPayload, hblank, hum] at heq
    | some o =>
      cases hts : parseInt64? o.timestamp with
      | none =>
        simp [lineToPayload, hblank, hum, hts] at heq
        rw [heq] at hts
        rw [hts] at ht
        exact Option.noConfusion ht
      | some t2 =>
        by_cases hcut : t2 < now - MaxAgeMs
        · simp [lineToPayload, hblank, hum, hts, hcut] at heq
        · simp [lineToPayload, hblank, hum, hts, hcut] at heq
          rw [heq] at hts
          rw [hts] at ht
          have h2 : t2 = t := Option.some.inj ht
          rw [h2] at hcut
          exact hcut hlt

/-- Witness for C4: a concrete stale record is absent from a concrete
batch's toSend list. -/
theorem stale_records_never_sent_witness :
    Payload.mk ("9".toList) ∈
      toSendOf (fun r => some (Payload.mk r)) ((86400005 : Int) - MaxAgeMs) [("9".toList)] ∧
    parseInt64? (Payload.mk ("9".toList)).timestamp = some 9 ∧
    ¬ (9 : Int) < 86400005 - MaxAgeMs :=
  ⟨by decide, by decide,
    stale_records_never_sent (fun r => some (Payload.mk r)) 86400005 [("9".toList)]
      (Payload.mk ("9".toList)) 9 (by decide) (by decide)⟩

/-- C10: a non-blank spool record that unmarshals but whose timestamp is
not a parseable decimal integer is never dropped by the staleness cutoff;
it lands in the batch presented to the sink whatever the cutoff is. -/
theorem unparseable_timestamp_never_dropped (unmarshal : Str → Option Payload)
    (cutoff : Int) (rawBatch : List Str) (raw : Str) (obj : Payload)
    (hraw : raw ∈ rawBatch)
    (hblank : (trimSpace raw).isEmpty = false)
    (hum : unmarshal raw = some obj)
    (hts : parseInt64? obj.timestamp = none) :
    obj ∈ toSendOf unmarshal cutoff rawBatch := by
  refine List.mem_filterMap.mpr ⟨raw, hraw, ?_⟩
  simp [lineToPayload, hblank, hum, hts]

/-- Witness for C10: a record with timestamp "x" (far in the past or not,
there is no number to compare) is kept even against an enormous cutoff. -/
theorem unparseable_timestamp_never_dropped_witness :
    ("x".toList) ∈ [("x".toList)] ∧
    (trimSpace ("x".toList)).isEmpty = false ∧
    (fun (r : Str) => some (Payload.mk r)) ("x".toList) = some (Payload.mk ("x".toList)) ∧
    parseInt64? (Payload.mk ("x".toList)).timestamp = none ∧
    Payload.mk ("x".toList) ∈
      toSendOf (fun r => some (Payload.mk r)) 999999999999 [("x".toList)] :=
  ⟨by decide, by decide, rfl, by decide,
    unparseable_timestamp_never_dropped (fun r => some (Payload.mk r)) 999999999999
      [("x".toList)] ("x".toList) (Payload.mk ("x".toList))
      (by decide) (by decide) rfl (by decide)⟩

/-- splitNl never returns an empty list of fields. -/
theorem splitNl_ne_nil (s : Str) : splitNl s ≠ [] := by
  cases s with
  | nil => simp [splitNl]
  | cons c rest =>
    simp only [splitNl]
    cases h : splitNl rest with
    | nil => simp
    | cons line more => by_cases hc : c = '\n' <;> simp [hc]

/-- C1: when a non-empty batch is POSTed outside dry-run and the sink
answers anything but HTTP 204 (including not answering at all), flushOnce
returns the send error and leaves the spool content untouched — no
truncation — so the next flushOnce reads the same prefix in the same
order. -/
theorem flushOnce_send_failure_preserves_spool
    (resp : Option Nat) (unmarshal : Str → Option Payload) (now : Int) (data : Str)
    (hresp : resp ≠ some 204)
    (hbatch : toSendOf unmarshal (now - MaxAgeMs)
        ((splitNl (trimRightNl data)).take
          (min (splitNl (trimRightNl data)).length MaxBatchSize)) ≠ []) :
    flushOnce false resp unmarshal now data = (data, .error ()) := by
  have hsend : sendPayloadOk false resp = false := by
    cases resp with
    | none => rfl
    | some code =>
      have hcode : code ≠ 204 := fun h => hresp (by rw [h])
      simp [sendPayloadOk, hcode]
  by_cases hempty : (trimRightNl data).isEmpty = true
  · exfalso
    apply hbatch
    rw [List.isEmpty_iff.mp hempty]
    rfl
  · have hts : (toSendOf unmarshal (now - MaxAgeMs)
        ((splitNl (trimRightNl data)).take
          (min (splitNl (trimRightNl data)).length MaxBatchSize))).isEmpty = false := by
      cases hc : (toSendOf unmarshal (now - MaxAgeMs)
          ((splitNl (trimRightNl data)).take
            (min (splitNl (trimRightNl data)).length MaxBatchSize))).isEmpty with
      | false => rfl
      | true => exact absurd (List.isEmpty_iff.mp hc) hbatch
    simp only [flushOnce]
    rw [if_neg hempty]
    rw [if_neg (by simp [List.isEmpty_iff, splitNl_ne_nil (trimRightNl data)])]
    rw [if_pos (by rw [hts, hsend]; rfl)]

/-- Witness for C1 at a one-record spool and a transport error. -/
theorem flushOnce_send_failure_preserves_spool_witness :
    (none : Option Nat) ≠ some 204 ∧
    toSendOf (fun r => some (Payload.mk r)) ((0 : Int) - MaxAgeMs)
      ((splitNl (trimRightNl ("5\n".toList))).take
        (min (splitNl (trimRightNl ("5\n".toList))).length MaxBatchSize)) ≠ [] ∧
    flushOnce false none (fun r => some (Payload.mk r)) 0 ("5\n".toList) =
      (("5\n".toList), .error ()) :=
  ⟨by decide, by decide,
    flushOnce_send_failure_preserves_spool none (fun r => some (Payload.mk r)) 0
      ("5\n".toList) (by decide) (by decide)⟩

/-- dropWhile is the identity when no element satisfies the predicate. -/
theorem dropWhile_eq_self_of_all (p : Char → Bool) (l : Str)
    (h : ∀ c ∈ l, p c = false) : l.dropWhile p = l := by
  cases l with
  | nil => rfl
  | cons c cs => simp [List.dropWhile_cons, h c (List.mem_cons_self c cs)]

/-- Trimming trailing newlines off a newline-terminated newline-free line
recovers the line. -/
theorem trimRightNl_append_last (l : Str) (hnl : '\n' ∉ l) :
    trimRightNl (l ++ ['\n']) = l := by
  unfold trimRightNl
  have hrev : (l ++ ['\n']).reverse = '\n' :: l.reverse := by
    rw [List.reverse_append]; rfl
  have hall : ∀ c ∈ l.reverse, isNlChar c = false := by
    intro c hc
    have hcl : c ∈ l := List.mem_reverse.mp hc
    have hne : c ≠ '\n' := fun h => hnl (h ▸ hcl)
    simp [isNlChar, hne]
  rw [hrev, List.dropWhile_cons]
  rw [if_pos (by simp [isNlChar])]
  rw [dropWhile_eq_self_of_all _ _ hall, List.reverse_reverse]

/-- Trimming trailing newlines only touches the last record when the tail
does not trim to nothing. -/
theorem trimRightNl_append_cons (l t : Str) (h : trimRightNl t ≠ []) :
    trimRightNl (l ++ '\n' :: t) = l ++ '\n' :: trimRightNl t := by
  have hd : t.reverse.dropWhile isNlChar ≠ [] := by
    intro hh
    exact h (by unfold trimRightNl; rw [hh]; rfl)
  unfold trimRightNl
  rw [show (l ++ '\n' :: t).reverse = t.reverse ++ '\n' :: l.reverse by
    rw [List.reverse_append, List.reverse_cons]
    simp [List.append_assoc]]
  rw [show t.reverse ++ '\n' :: l.reverse = t.reverse ++ ('\n' :: l.reverse) from rfl]
  rw [List.dropWhile_append]
  rw [if_neg (by simp [List.isEmpty_iff, hd])]
  rw [List.reverse_append]
  simp [List.reverse_cons, List.append_assoc]

/-- splitNl's defining equation on a cons cell. -/
theorem splitNl_cons (c : Char) (rest : Str) :
    splitNl (c :: rest) =
      match splitNl rest with
      | [] => [[]]
      | line :: more => if c = '\n' then [] :: line :: more else (c :: line) :: more := rfl

/-- A newline-free string splits into just itself. -/
theorem splitNl_no_nl (l : Str) (h : '\n' ∉ l) : splitNl l = [l] := by
  induction l with
  | nil => rfl
  | cons c cs ih =>
    have hc : c ≠ '\n' := fun e => h (e ▸ List.mem_cons_self c cs)
    have hcs : '\n' ∉ cs := fun e => h (List.mem_cons_of_mem c e)
    rw [splitNl_cons, ih hcs]
    show (if c = '\n' then [] :: cs :: [] else (c :: cs) :: []) = [c :: cs]
    rw [if_neg hc]

/-- Splitting peels off a leading newline-free record. -/
theorem splitNl_append (l t : Str) (h : '\n' ∉ l) :
    splitNl (l ++ '\n' :: t) = l :: splitNl t := by
  induction l with
  | nil =>
    rw [List.nil_append, splitNl_cons]
    cases hs : splitNl t with
    | nil => exact absurd hs (splitNl_ne_nil t)
    | cons line more =>
      show (if ('\n' : Char) = '\n' then [] :: line :: more else _) = [] :: line :: more
      rw [if_pos rfl]
  | cons c cs ih =>
    have hc : c ≠ '\n' := fun e => h (e ▸ List.mem_cons_self c cs)
    have hcs : '\n' ∉ cs := fun e => h (List.mem_cons_of_mem c e)
    rw [List.cons_append, splitNl_cons, ih hcs]
    show (if c = '\n' then [] :: cs :: splitNl t else (c :: cs) :: splitNl t) =
      (c :: cs) :: splitNl t
    rw [if_neg hc]

/-- Reading back a spool file of non-empty newline-free records (each
newline-terminated) recovers exactly those records: the trimmed content is
non-empty and splits into the original lines. -/
theorem parse_serialize (lines : List Str)
    (h : ∀ l ∈ lines, l ≠ [] ∧ '\n' ∉ l) (hne : lines ≠ []) :
    trimRightNl (serializeLines lines) ≠ [] ∧
    splitNl (trimRightNl (serializeLines lines)) = lines := by
  induction lines with
  | nil => exact absurd rfl hne
  | cons l ls ih =>
    obtain ⟨hlne, hlnl⟩ := h l (List.mem_cons_self l ls)
    cases ls with
    | nil =>
      have hser : serializeLines [l] = l ++ ['\n'] := rfl
      rw [hser, trimRightNl_append_last l hlnl]
      exact ⟨hlne, splitNl_no_nl l hlnl⟩
    | cons l2 ls2 =>
      have hrec := ih (fun x hx => h x (List.mem_cons_of_mem l hx)) (by simp)
      have hser : serializeLines (l :: l2 :: ls2) =
        l ++ '\n' :: serializeLines (l2 :: ls2) := rfl
      rw [hser, trimRightNl_append_cons _ _ hrec.1]
      constructor
      · simp
      · rw [splitNl_append _ _ hlnl, hrec.2]

/-- C3: on a spool of newline-terminated records whose POST succeeds,
flushOnce batches exactly the first min(n, 100) lines (and the payload
list built from them never exceeds 100 records), rewrites the spool to
exactly the lines after that prefix, and returns true iff lines remain. -/
theorem flushOnce_success_batches_head (dryRun : Bool) (resp : Option Nat)
    (unmarshal : Str → Option Payload) (now : Int) (lines : List Str)
    (hlines : ∀ l ∈ lines, l ≠ [] ∧ '\n' ∉ l)
    (hsend : sendPayloadOk dryRun resp = true) :
    flushOnce dryRun resp unmarshal now (serializeLines lines) =
      (serializeLines (lines.drop (min lines.length MaxBatchSize)),
        .ok (!(lines.drop (min lines.length MaxBatchSize)).isEmpty)) ∧
    (toSendOf unmarshal (now - MaxAgeMs)
        (lines.take (min lines.length MaxBatchSize))).length ≤ MaxBatchSize := by
  constructor
  · by_cases hne : lines = []
    · subst hne; rfl
    · have hparse := parse_serialize lines hlines hne
      simp only [flushOnce, hparse.2]
      rw [if_neg (by simp [List.isEmpty_iff, hparse.1])]
      rw [if_neg (by simp [List.isEmpty_iff, hne])]
      rw [if_neg (by rw [hsend]; simp)]
  · unfold toSendOf
    refine le_trans (List.length_filterMap_le _ _) ?_
    rw [List.length_take]
    simp only [MaxBatchSize]
    omega

/-- spoolLinesW is a concrete two-record spool for the C3 witness. -/
def spoolLinesW : List Str := [("a".toList), ("b".toList)]

/-- Witness for C3 at a two-line spool and a 204 sink. -/
theorem flushOnce_success_batches_head_witness :
    (∀ l ∈ spoolLinesW, l ≠ [] ∧ '\n' ∉ l) ∧
    sendPayloadOk false (some 204) = true ∧
    flushOnce false (some 204) (fun r => some (Payload.mk r)) 0
        (serializeLines spoolLinesW) =
      (serializeLines (spoolLinesW.drop (min spoolLinesW.length MaxBatchSize)),
        .ok (!(spoolLinesW.drop (min spoolLinesW.length MaxBatchSize)).isEmpty)) ∧
    (toSendOf (fun r => some (Payload.mk r)) ((0 : Int) - MaxAgeMs)
        (spoolLinesW.take (min spoolLinesW.length MaxBatchSize))).length ≤ MaxBatchSize :=
  ⟨by decide, rfl,
    (flushOnce_success_batches_head false (some 204) (fun r => some (Payload.mk r)) 0
      spoolLinesW (by decide) rfl).1,
    (flushOnce_success_batches_head false (some 204) (fun r => some (Payload.mk r)) 0
      spoolLinesW (by decide) rfl).2⟩

end Simob
